import Mathlib

/-!
Verification of the subscription-identity and reference-counting core of the
emitter broker (`broker/sub.go`).

Modelling conventions:
* `uint32` values are `Nat` (bitwise XOR of values below `2^32` never
  overflows, so no explicit modulus is needed).
* Go's `int` counter is modelled as `Int`; reference counts move by ±1 per
  call and stay far below machine bounds.
* The Go map `map[uint32]*subCounter` is modelled as an association list of
  `(key, subCounter)` pairs with unique keys; map iteration order is the list
  order (the claims verified here never depend on a particular order).
* Unguarded indexing such as `s[0]` (which panics on an empty slice in Go) is
  modelled with `Option`: `none` is the panic, `some v` a normal result.
  Operations that call such indexing are therefore `Option`-valued as well.
* For the snapshot-aliasing property there is a second, heap-level model of
  the registry: an `Ssid` slice header is a reference into a heap of backing
  arrays, `All` copies headers (so a snapshot aliases the registry's
  arrays), and each registry operation takes and returns the heap, so that
  writing a backing array is expressible — the definitions return the heap
  unchanged exactly because the Go code never writes one.
-/

namespace Emitter

/-- `Ssid` is a subscription ID: a list of uint32 values, element 0 the
contract scope, the rest the hashed channel tokens. -/
abbrev Ssid := List Nat

/-- The part of `security.Channel` consumed here: its `Query` token hashes. -/
structure Channel where
  Query : List Nat

/-- `NewSsid(contract, c)` appends the contract then all of `c.Query`. -/
def NewSsid (contract : Nat) (c : Channel) : Ssid :=
  contract :: c.Query

/-- `Ssid.Contract` reads `s[0]`; `none` models the out-of-range panic. -/
def Ssid.Contract (s : Ssid) : Option Nat :=
  s.head?

/-- `Ssid.GetHashCode` reads `h := s[0]` then XORs every element of `s[1:]`
into `h`; `none` models the out-of-range panic on an empty ssid. -/
def Ssid.GetHashCode (s : Ssid) : Option Nat :=
  match s with
  | [] => none
  | h :: rest => some (rest.foldl (fun a i => Nat.xor a i) h)

/-- `Subscribers` is a slice of subscriber handles compared by identity;
the handle type `α` is opaque, only identity comparison is used. -/
abbrev Subscribers (α : Type) := List α

/-- `Subscribers.Contains` scans the slice, returning on the first match. -/
def Subscribers.Contains {α : Type} [DecidableEq α] : Subscribers α → α → Bool
  | [], _ => false
  | v :: rest, value => if v = value then true else Subscribers.Contains rest value

/-- `Subscribers.AddUnique` appends `value` only when `Contains` is false. -/
def Subscribers.AddUnique {α : Type} [DecidableEq α] (s : Subscribers α) (value : α) :
    Subscribers α :=
  if Subscribers.Contains s value = false then s ++ [value] else s

/-- The mutable record stored per hash bucket. -/
structure subCounter where
  Ssid : Ssid
  Channel : String
  Counter : Int
deriving DecidableEq, Repr

/-- The registry map `map[uint32]*subCounter`, as an association list. -/
abbrev SubscriptionCounters := List (Nat × subCounter)

/-- `NewSubscriptionCounters` starts from the empty map. -/
def NewSubscriptionCounters : SubscriptionCounters := []

/-- Go map lookup `s.m[key]`. -/
def mapFind (key : Nat) : SubscriptionCounters → Option subCounter
  | [] => none
  | p :: rest => if p.1 = key then some p.2 else mapFind key rest

/-- Go map insertion of a fresh key (`s.m[key] = meter`, key absent). -/
def mapInsert (key : Nat) (v : subCounter) (m : SubscriptionCounters) :
    SubscriptionCounters :=
  m ++ [(key, v)]

/-- Mutation through the `*subCounter` pointer stored at `key`. -/
def mapUpdate (key : Nat) (f : subCounter → subCounter) (m : SubscriptionCounters) :
    SubscriptionCounters :=
  m.map fun p => if p.1 = key then (p.1, f p.2) else p

/-- Go map deletion `delete(s.m, key)`. -/
def mapDelete (key : Nat) (m : SubscriptionCounters) : SubscriptionCounters :=
  m.filter fun p => p.1 != key

/-- `getOrCreate` looks the bucket up by `ssid.GetHashCode()`; when absent it
inserts a fresh entry with `Counter = 0`.  It returns the bucket key (the Go
code returns the `*subCounter` aliased by the map slot) together with the
possibly-extended map; `none` models the panic of `GetHashCode` on an empty
ssid. -/
def getOrCreate (m : SubscriptionCounters) (ssid : Ssid) (channel : String) :
    Option (Nat × SubscriptionCounters) :=
  match Ssid.GetHashCode ssid with
  | none => none
  | some key =>
    match mapFind key m with
    | some _ => some (key, m)
    | none => some (key, mapInsert key ⟨ssid, channel, 0⟩ m)

/-- `Increment`: `m := getOrCreate(ssid, channel); m.Counter++`. -/
def Increment (m : SubscriptionCounters) (ssid : Ssid) (channel : String) :
    Option SubscriptionCounters :=
  (getOrCreate m ssid channel).map fun km =>
    mapUpdate km.1 (fun c => { c with Counter := c.Counter + 1 }) km.2

/-- `Decrement`: look up by hash; if present `Counter--`, and when the new
count is `≤ 0` delete the bucket; if absent, do nothing. -/
def Decrement (m : SubscriptionCounters) (ssid : Ssid) : Option SubscriptionCounters :=
  (Ssid.GetHashCode ssid).map fun key =>
    match mapFind key m with
    | some c =>
      if c.Counter - 1 ≤ 0 then mapDelete key m
      else mapUpdate key (fun x => { x with Counter := x.Counter - 1 }) m
    | none => m

/-- `All` copies every bucket into a fresh slice of (Ssid, Channel) pairs. -/
def All (m : SubscriptionCounters) : List (Ssid × String) :=
  m.map fun p => (p.2.Ssid, p.2.Channel)

/-- `n` successive `Increment(ssid, channel)` calls. -/
def iterInc : Nat → SubscriptionCounters → Ssid → String → Option SubscriptionCounters
  | 0, m, _, _ => some m
  | n + 1, m, ssid, ch => (Increment m ssid ch).bind fun m' => iterInc n m' ssid ch

/-- `n` successive `Decrement(ssid)` calls. -/
def iterDec : Nat → SubscriptionCounters → Ssid → Option SubscriptionCounters
  | 0, m, _ => some m
  | n + 1, m, ssid => (Decrement m ssid).bind fun m' => iterDec n m' ssid

/-- One client call against the registry: `Increment`, `Decrement`, or `All`. -/
inductive Op where
  | inc : Ssid → String → Op
  | dec : Ssid → Op
  | all : Op
deriving DecidableEq, Repr

/-- Run a sequence of calls against the registry.  `All` reads the registry
without changing it; `none` models a panic inside one of the calls. -/
def runOps : SubscriptionCounters → List Op → Option SubscriptionCounters
  | m, [] => some m
  | m, Op.inc ssid ch :: rest => (Increment m ssid ch).bind fun m' => runOps m' rest
  | m, Op.dec ssid :: rest => (Decrement m ssid).bind fun m' => runOps m' rest
  | m, Op.all :: rest => runOps m rest

/-! #### Heap-level model of slices (for the snapshot-aliasing claim)

A Go slice value is a header `(pointer, len, cap)`; assigning it, as
`All` does with `Ssid: m.Ssid` (sub.go:140), copies the header and shares
the backing array.  Below, the heap is the list of all allocated `uint32`
backing arrays and a header is an index into it. -/

/-- The heap of allocated uint32 backing arrays. -/
abbrev Heap := List (List Nat)

/-- An `Ssid` slice header: a reference to a backing array in the heap. -/
structure SsidRef where
  ref : Nat
deriving DecidableEq, Repr

/-- Dereference a slice header (`none` for a dangling reference). -/
def hread (h : Heap) (r : SsidRef) : Option (List Nat) :=
  h[r.ref]?

/-- Heap-level bucket record: it stores the `Ssid` slice header, so the
bucket aliases the backing array the caller's `Ssid` points to. -/
structure subCounterH where
  Ssid : SsidRef
  Channel : String
  Counter : Int
deriving DecidableEq, Repr

/-- The registry map at heap level. -/
abbrev RegistryH := List (Nat × subCounterH)

/-- Map lookup, heap-level registry. -/
def mapFindH (key : Nat) : RegistryH → Option subCounterH
  | [] => none
  | p :: rest => if p.1 = key then some p.2 else mapFindH key rest

/-- Mutation through the `*subCounter` pointer stored at `key`, heap level. -/
def mapUpdateH (key : Nat) (f : subCounterH → subCounterH) (m : RegistryH) :
    RegistryH :=
  m.map fun p => if p.1 = key then (p.1, f p.2) else p

/-- Map deletion, heap-level registry. -/
def mapDeleteH (key : Nat) (m : RegistryH) : RegistryH :=
  m.filter fun p => p.1 != key

/-- `GetHashCode` computed through the heap: the registry reads the token
values out of the shared backing array. -/
def getHashCodeH (h : Heap) (r : SsidRef) : Option Nat :=
  (hread h r).bind Ssid.GetHashCode

/-- Heap-level `getOrCreate`: reads the heap, stores the slice header. -/
def getOrCreateH (h : Heap) (m : RegistryH) (r : SsidRef) (channel : String) :
    Option (Nat × RegistryH) :=
  match getHashCodeH h r with
  | none => none
  | some key =>
    match mapFindH key m with
    | some _ => some (key, m)
    | none => some (key, m ++ [(key, ⟨r, channel, 0⟩)])

/-- Heap-level `Increment`.  The operation takes and returns the heap, so a
write to a backing array would be expressible here; the definition returns
the heap unchanged because the Go code performs no such write. -/
def IncrementH (h : Heap) (m : RegistryH) (r : SsidRef) (channel : String) :
    Option (Heap × RegistryH) :=
  (getOrCreateH h m r channel).map fun km =>
    (h, mapUpdateH km.1 (fun c => { c with Counter := c.Counter + 1 }) km.2)

/-- Heap-level `Decrement`; like `IncrementH` it returns the heap unchanged
on every path. -/
def DecrementH (h : Heap) (m : RegistryH) (r : SsidRef) :
    Option (Heap × RegistryH) :=
  (getHashCodeH h r).map fun key =>
    match mapFindH key m with
    | some c =>
      if c.Counter - 1 ≤ 0 then (h, mapDeleteH key m)
      else (h, mapUpdateH key (fun x => { x with Counter := x.Counter - 1 }) m)
    | none => (h, m)

/-- Heap-level `All`: copies each bucket's slice *header* and channel, so
every pair in the returned snapshot aliases the same backing array as the
registry's own entry (the header copy of sub.go:140). -/
def AllH (m : RegistryH) : List (SsidRef × String) :=
  m.map fun p => (p.2.Ssid, p.2.Channel)

/-- The values a caller observes when dereferencing a snapshot's slices. -/
def readSnapshot (h : Heap) (snap : List (SsidRef × String)) :
    List (Option (List Nat) × String) :=
  snap.map fun p => (hread h p.1, p.2)

/-- Caller operations at heap level: `inc`/`dec` carry the contract and the
channel's token hashes; running one first allocates the `Ssid` backing array
(as `NewSsid` does) and then calls the registry. -/
inductive OpH where
  | inc : Nat → List Nat → String → OpH
  | dec : Nat → List Nat → OpH
  | all : OpH
deriving DecidableEq, Repr

/-- Run heap-level calls, recording, in order, the value returned by each
`All` call into a log of snapshots held by the caller. -/
def runSnapH : Heap → RegistryH → List (List (SsidRef × String)) → List OpH →
    Option (Heap × RegistryH × List (List (SsidRef × String)))
  | h, m, log, [] => some (h, m, log)
  | h, m, log, OpH.inc contract q ch :: rest =>
    (IncrementH (h ++ [NewSsid contract ⟨q⟩]) m ⟨h.length⟩ ch).bind fun hm =>
      runSnapH hm.1 hm.2 log rest
  | h, m, log, OpH.dec contract q :: rest =>
    (DecrementH (h ++ [NewSsid contract ⟨q⟩]) m ⟨h.length⟩).bind fun hm =>
      runSnapH hm.1 hm.2 log rest
  | h, m, log, OpH.all :: rest => runSnapH h m (log ++ [AllH m]) rest

/-- The registry invariant: bucket keys are distinct (it is a map) and every
retained entry has a strictly positive counter. -/
def GoodRegistry (m : SubscriptionCounters) : Prop :=
  (m.map Prod.fst).Nodup ∧ ∀ p ∈ m, 1 ≤ p.2.Counter

/-! ### Helper lemmas on the map model -/

theorem mapFind_eq_none (key : Nat) (m : SubscriptionCounters) :
    mapFind key m = none ↔ ∀ p ∈ m, p.1 ≠ key := by
  induction m with
  | nil => simp [mapFind]
  | cons p rest ih =>
    by_cases h : p.1 = key <;> simp [mapFind, h, ih]

theorem mapFind_append_end (key : Nat) (c : subCounter) (m : SubscriptionCounters)
    (h : ∀ p ∈ m, p.1 ≠ key) :
    mapFind key (m ++ [(key, c)]) = some c := by
  induction m with
  | nil => simp [mapFind]
  | cons p rest ih =>
    have hp : p.1 ≠ key := h p (by simp)
    simpa [mapFind, hp] using ih fun q hq => h q (by simp [hq])

theorem mapUpdate_not_mem (key : Nat) (f : subCounter → subCounter)
    (m : SubscriptionCounters) (h : ∀ p ∈ m, p.1 ≠ key) :
    mapUpdate key f m = m := by
  induction m with
  | nil => rfl
  | cons p rest ih =>
    have hp : p.1 ≠ key := h p (by simp)
    simpa [mapUpdate, hp] using ih fun q hq => h q (by simp [hq])

theorem mapUpdate_append_end (key : Nat) (f : subCounter → subCounter)
    (c : subCounter) (m : SubscriptionCounters) (h : ∀ p ∈ m, p.1 ≠ key) :
    mapUpdate key f (m ++ [(key, c)]) = m ++ [(key, f c)] := by
  have hsplit : mapUpdate key f (m ++ [(key, c)])
      = mapUpdate key f m ++ mapUpdate key f [(key, c)] := by
    simp [mapUpdate]
  rw [hsplit, mapUpdate_not_mem key f m h]
  simp [mapUpdate]

theorem mapDelete_not_mem (key : Nat) (m : SubscriptionCounters)
    (h : ∀ p ∈ m, p.1 ≠ key) :
    mapDelete key m = m := by
  induction m with
  | nil => rfl
  | cons p rest ih =>
    have hp : p.1 ≠ key := h p (by simp)
    simpa [mapDelete, hp] using ih fun q hq => h q (by simp [hq])

theorem mapDelete_append_end (key : Nat) (c : subCounter) (m : SubscriptionCounters)
    (h : ∀ p ∈ m, p.1 ≠ key) :
    mapDelete key (m ++ [(key, c)]) = m := by
  have hsplit : mapDelete key (m ++ [(key, c)])
      = mapDelete key m ++ mapDelete key [(key, c)] := by
    simp [mapDelete]
  rw [hsplit, mapDelete_not_mem key m h]
  simp [mapDelete]

/-! ### Behaviour of a single Increment / Decrement -/

theorem Increment_absent (m : SubscriptionCounters) (s : Ssid) (ch : String) (key : Nat)
    (hk : Ssid.GetHashCode s = some key) (habs : mapFind key m = none) :
    Increment m s ch = some (m ++ [(key, ⟨s, ch, 1⟩)]) := by
  have h := (mapFind_eq_none key m).1 habs
  simp only [Increment, getOrCreate, hk, habs, mapInsert, Option.map_some']
  rw [mapUpdate_append_end key _ _ m h]
  norm_num

theorem Increment_present (m0 : SubscriptionCounters) (s0 : Ssid) (ch0 : String)
    (n : Int) (s : Ssid) (ch : String) (key : Nat)
    (hk : Ssid.GetHashCode s = some key) (h0 : ∀ p ∈ m0, p.1 ≠ key) :
    Increment (m0 ++ [(key, ⟨s0, ch0, n⟩)]) s ch
      = some (m0 ++ [(key, ⟨s0, ch0, n + 1⟩)]) := by
  have hfind := mapFind_append_end key ⟨s0, ch0, n⟩ m0 h0
  simp only [Increment, getOrCreate, hk, hfind, Option.map_some']
  rw [mapUpdate_append_end key _ _ m0 h0]

theorem Decrement_present_del (m0 : SubscriptionCounters) (s0 : Ssid) (ch0 : String)
    (n : Int) (s : Ssid) (key : Nat)
    (hk : Ssid.GetHashCode s = some key) (h0 : ∀ p ∈ m0, p.1 ≠ key)
    (hn : n - 1 ≤ 0) :
    Decrement (m0 ++ [(key, ⟨s0, ch0, n⟩)]) s = some m0 := by
  have hfind := mapFind_append_end key ⟨s0, ch0, n⟩ m0 h0
  simp only [Decrement, hk, hfind, Option.map_some']
  rw [if_pos hn, mapDelete_append_end key _ m0 h0]

theorem Decrement_present_pos (m0 : SubscriptionCounters) (s0 : Ssid) (ch0 : String)
    (n : Int) (s : Ssid) (key : Nat)
    (hk : Ssid.GetHashCode s = some key) (h0 : ∀ p ∈ m0, p.1 ≠ key)
    (hn : ¬ n - 1 ≤ 0) :
    Decrement (m0 ++ [(key, ⟨s0, ch0, n⟩)]) s
      = some (m0 ++ [(key, ⟨s0, ch0, n - 1⟩)]) := by
  have hfind := mapFind_append_end key ⟨s0, ch0, n⟩ m0 h0
  simp only [Decrement, hk, hfind, Option.map_some']
  rw [if_neg hn, mapUpdate_append_end key _ _ m0 h0]

theorem Decrement_absent (m : SubscriptionCounters) (s : Ssid) (key : Nat)
    (hk : Ssid.GetHashCode s = some key) (habs : mapFind key m = none) :
    Decrement m s = some m := by
  simp [Decrement, hk, habs]

/-! ### Iterated Increment / Decrement -/

theorem iterInc_present (j : Nat) (m0 : SubscriptionCounters) (s0 : Ssid) (ch0 : String)
    (n : Int) (s : Ssid) (ch : String) (key : Nat)
    (hk : Ssid.GetHashCode s = some key) (h0 : ∀ p ∈ m0, p.1 ≠ key) :
    iterInc j (m0 ++ [(key, ⟨s0, ch0, n⟩)]) s ch
      = some (m0 ++ [(key, ⟨s0, ch0, n + (j : Int)⟩)]) := by
  induction j generalizing n with
  | zero => simp [iterInc]
  | succ j ih =>
    rw [iterInc, Increment_present m0 s0 ch0 n s ch key hk h0, Option.some_bind]
    rw [ih (n + 1)]
    have harith : n + 1 + (j : Int) = n + ((j + 1 : Nat) : Int) := by push_cast; ring
    rw [harith]

theorem iterDec_present (j : Nat) (m0 : SubscriptionCounters) (s0 : Ssid) (ch0 : String)
    (n : Int) (s : Ssid) (key : Nat)
    (hk : Ssid.GetHashCode s = some key) (h0 : ∀ p ∈ m0, p.1 ≠ key)
    (hj : (j : Int) < n) :
    iterDec j (m0 ++ [(key, ⟨s0, ch0, n⟩)]) s
      = some (m0 ++ [(key, ⟨s0, ch0, n - (j : Int)⟩)]) := by
  induction j generalizing n with
  | zero => simp [iterDec]
  | succ j ih =>
    have hj' : (j : Int) + 1 < n := by push_cast at hj; omega
    have h1 : ¬ n - 1 ≤ 0 := by omega
    rw [iterDec, Decrement_present_pos m0 s0 ch0 n s key hk h0 h1, Option.some_bind]
    rw [ih (n - 1) (by omega)]
    have harith : n - 1 - (j : Int) = n - ((j + 1 : Nat) : Int) := by push_cast; ring
    rw [harith]

/-! ### Claim theorems -/

/-- C1: for an SSID whose hash bucket is absent, N `Increment` calls followed
by N−1 `Decrement` calls leave exactly one entry for that bucket, bearing
count 1; the Nth `Decrement` deletes the bucket, restoring the original
registry, in which no entry for that hash remains (so `All` omits it). -/
theorem C1_reference_counting (m : SubscriptionCounters) (s : Ssid) (ch : String)
    (key : Nat) (N : Nat)
    (hk : Ssid.GetHashCode s = some key) (hN : 1 ≤ N)
    (habs : mapFind key m = none) :
    iterInc N m s ch = some (m ++ [(key, ⟨s, ch, (N : Int)⟩)]) ∧
    iterDec (N - 1) (m ++ [(key, ⟨s, ch, (N : Int)⟩)]) s
      = some (m ++ [(key, ⟨s, ch, 1⟩)]) ∧
    Decrement (m ++ [(key, ⟨s, ch, 1⟩)]) s = some m ∧
    ∀ p ∈ m, p.1 ≠ key := by
  have h0 := (mapFind_eq_none key m).1 habs
  obtain ⟨M, rfl⟩ : ∃ M, N = M + 1 := ⟨N - 1, by omega⟩
  refine ⟨?_, ?_, ?_, h0⟩
  · rw [iterInc, Increment_absent m s ch key hk habs, Option.some_bind]
    rw [iterInc_present M m s ch 1 s ch key hk h0]
    have harith : (1 : Int) + (M : Int) = ((M + 1 : Nat) : Int) := by push_cast; ring
    rw [harith]
  · have hj : ((M + 1 - 1 : Nat) : Int) < ((M + 1 : Nat) : Int) := by push_cast; omega
    rw [iterDec_present (M + 1 - 1) m s ch ((M + 1 : Nat) : Int) s key hk h0 hj]
    have harith : ((M + 1 : Nat) : Int) - ((M + 1 - 1 : Nat) : Int) = 1 := by
      push_cast; ring
    rw [harith]
  · exact Decrement_present_del m s ch 1 s key hk h0 (by omega)

theorem C1_reference_counting_witness :
    iterInc 2 [] [1, 2] "a/b" = some ([] ++ [(3, ⟨[1, 2], "a/b", ((2 : Nat) : Int)⟩)]) ∧
    iterDec (2 - 1) ([] ++ [(3, ⟨[1, 2], "a/b", ((2 : Nat) : Int)⟩)]) [1, 2]
      = some ([] ++ [(3, ⟨[1, 2], "a/b", 1⟩)]) ∧
    Decrement ([] ++ [(3, ⟨[1, 2], "a/b", 1⟩)]) [1, 2] = some [] ∧
    ∀ p ∈ ([] : SubscriptionCounters), p.1 ≠ 3 :=
  C1_reference_counting [] [1, 2] "a/b" 3 2 (by decide) (by decide) (by decide)

/-- C4: `Decrement` on an SSID whose hash bucket is absent is a silent no-op:
it signals nothing and leaves the registry unchanged, so `All` after the call
returns exactly what it returned before. -/
theorem C4_decrement_absent_noop (m : SubscriptionCounters) (s : Ssid) (key : Nat)
    (hk : Ssid.GetHashCode s = some key) (habs : mapFind key m = none) :
    Decrement m s = some m ∧ (Decrement m s).map All = some (All m) := by
  have h := Decrement_absent m s key hk habs
  exact ⟨h, by rw [h]; rfl⟩

theorem C4_decrement_absent_noop_witness :
    Decrement [(5, ⟨[7], "x", 1⟩)] [2, 3] = some [(5, ⟨[7], "x", 1⟩)] ∧
    (Decrement [(5, ⟨[7], "x", 1⟩)] [2, 3]).map All
      = some (All [(5, ⟨[7], "x", 1⟩)]) :=
  C4_decrement_absent_noop [(5, ⟨[7], "x", 1⟩)] [2, 3] 1 (by decide) (by decide)

/-- C3: the combined hash ignores the order of the token elements after
element 0: permuting positions 1.. preserves `GetHashCode`; consequently the
structurally distinct SSIDs `[1,2,3]` and `[1,3,2]` share a hash and the
registry merges them into one bucket (the second `Increment` only bumps the
first one's count). -/
theorem C3_hash_order_insensitive (a : Nat) (t t' : List Nat) (hp : t.Perm t') :
    Ssid.GetHashCode (a :: t) = Ssid.GetHashCode (a :: t') ∧
    (([1, 2, 3] : Ssid) ≠ [1, 3, 2] ∧
      Ssid.GetHashCode [1, 2, 3] = Ssid.GetHashCode [1, 3, 2] ∧
      Increment [] [1, 2, 3] "ch1" = some [(0, ⟨[1, 2, 3], "ch1", 1⟩)] ∧
      Increment [(0, ⟨[1, 2, 3], "ch1", 1⟩)] [1, 3, 2] "ch2"
        = some [(0, ⟨[1, 2, 3], "ch1", 2⟩)]) := by
  constructor
  · haveI inst : RightCommutative (fun (x : Nat) (i : Nat) => Nat.xor x i) :=
      ⟨fun b a1 a2 => by
        show b ^^^ a1 ^^^ a2 = b ^^^ a2 ^^^ a1
        rw [Nat.xor_assoc, Nat.xor_comm a1 a2, ← Nat.xor_assoc]⟩
    simp only [Ssid.GetHashCode]
    rw [hp.foldl_eq a]
  · exact ⟨by decide, by decide, by decide, by decide⟩

theorem C3_hash_order_insensitive_witness :
    Ssid.GetHashCode (1 :: [2, 3]) = Ssid.GetHashCode (1 :: [3, 2]) ∧
    (([1, 2, 3] : Ssid) ≠ [1, 3, 2] ∧
      Ssid.GetHashCode [1, 2, 3] = Ssid.GetHashCode [1, 3, 2] ∧
      Increment [] [1, 2, 3] "ch1" = some [(0, ⟨[1, 2, 3], "ch1", 1⟩)] ∧
      Increment [(0, ⟨[1, 2, 3], "ch1", 1⟩)] [1, 3, 2] "ch2"
        = some [(0, ⟨[1, 2, 3], "ch1", 2⟩)]) :=
  C3_hash_order_insensitive 1 [2, 3] [3, 2] (by decide)

/-- C7: for a non-empty SSID, `GetHashCode` returns the XOR of all the
elements — the fold of XOR over the whole sequence — starting from element 0
and XORing in every remaining element; it is a pure function of the value. -/
theorem C7_hash_is_xor_of_all (a : Nat) (t : List Nat) :
    Ssid.GetHashCode (a :: t) = some ((a :: t).foldl Nat.xor 0) := by
  have h : Nat.xor 0 a = a := Nat.zero_xor a
  simp only [Ssid.GetHashCode, List.foldl_cons, h]

/-- C8: `NewSsid c ch` is the scope followed by the channel's token hashes in
order, so it has length `|Query| + 1 ≥ 1`, and `Contract` reads back the
scope. -/
theorem C8_newssid_structure (c : Nat) (ch : Channel) :
    NewSsid c ch = c :: ch.Query ∧
    (NewSsid c ch).length = ch.Query.length + 1 ∧
    1 ≤ (NewSsid c ch).length ∧
    Ssid.Contract (NewSsid c ch) = some c :=
  ⟨rfl, by simp [NewSsid], by simp [NewSsid], rfl⟩

/-- C10: `Contract` and `GetHashCode` read element 0 with no bounds guard:
on the empty SSID the access faults (modelled as `none`), and so do
`Increment`/`Decrement`, which call `GetHashCode`; for any non-empty SSID
the access is in bounds and all four operations complete normally. -/
theorem C10_element0_precondition (s : Ssid) (hs : s ≠ []) :
    Ssid.Contract ([] : Ssid) = none ∧
    Ssid.GetHashCode ([] : Ssid) = none ∧
    (∀ m ch, Increment m ([] : Ssid) ch = none) ∧
    (∀ m, Decrement m ([] : Ssid) = none) ∧
    (Ssid.Contract s).isSome ∧
    (Ssid.GetHashCode s).isSome ∧
    (∀ m ch, (Increment m s ch).isSome) ∧
    (∀ m, (Decrement m s).isSome) := by
  obtain ⟨a, t, rfl⟩ : ∃ a t, s = a :: t := by
    cases s with
    | nil => exact absurd rfl hs
    | cons a t => exact ⟨a, t, rfl⟩
  refine ⟨rfl, rfl, fun m ch => rfl, fun m => rfl, rfl, rfl, ?_, ?_⟩
  · intro m ch
    simp only [Increment, getOrCreate, Ssid.GetHashCode]
    cases mapFind (t.foldl (fun x i => Nat.xor x i) a) m <;> simp
  · intro m
    simp [Decrement, Ssid.GetHashCode]

theorem IncrementH_heap_unchanged (h : Heap) (m : RegistryH) (r : SsidRef)
    (ch : String) (h2 : Heap) (m2 : RegistryH)
    (hstep : IncrementH h m r ch = some (h2, m2)) : h2 = h := by
  rw [IncrementH] at hstep
  cases hg : getOrCreateH h m r ch with
  | none => rw [hg] at hstep; exact absurd hstep (by simp)
  | some km =>
    rw [hg, Option.map_some'] at hstep
    injection hstep with hstep
    exact (congrArg Prod.fst hstep).symm

theorem DecrementH_heap_unchanged (h : Heap) (m : RegistryH) (r : SsidRef)
    (h2 : Heap) (m2 : RegistryH)
    (hstep : DecrementH h m r = some (h2, m2)) : h2 = h := by
  cases hk : getHashCodeH h r with
  | none => rw [DecrementH, hk] at hstep; exact absurd hstep (by simp)
  | some key =>
    cases hfind : mapFindH key m with
    | none =>
      simp only [DecrementH, hk, Option.map_some', hfind] at hstep
      injection hstep with hstep
      exact (congrArg Prod.fst hstep).symm
    | some c =>
      simp only [DecrementH, hk, Option.map_some', hfind] at hstep
      injection hstep with hstep
      by_cases hn : c.Counter - 1 ≤ 0
      · rw [if_pos hn] at hstep
        exact (congrArg Prod.fst hstep).symm
      · rw [if_neg hn] at hstep
        exact (congrArg Prod.fst hstep).symm

theorem runSnapH_extends (ops : List OpH) (h h' : Heap) (m m' : RegistryH)
    (log log' : List (List (SsidRef × String)))
    (hrun : runSnapH h m log ops = some (h', m', log')) :
    (∃ hext, h' = h ++ hext) ∧ (∃ lext, log' = log ++ lext) := by
  induction ops generalizing h m log with
  | nil =>
    rw [runSnapH] at hrun
    injection hrun with hrun
    refine ⟨⟨[], ?_⟩, ⟨[], ?_⟩⟩
    · have := congrArg Prod.fst hrun
      simp at this
      rw [← this, List.append_nil]
    · have := congrArg (fun x => x.2.2) hrun
      simp at this
      rw [← this, List.append_nil]
  | cons op rest ih =>
    cases op with
    | inc contract q ch =>
      rw [runSnapH] at hrun
      cases hstep : IncrementH (h ++ [NewSsid contract ⟨q⟩]) m ⟨h.length⟩ ch with
      | none => rw [hstep] at hrun; exact absurd hrun (by simp)
      | some hm =>
        rw [hstep, Option.some_bind] at hrun
        have hheap : hm.1 = h ++ [NewSsid contract ⟨q⟩] :=
          IncrementH_heap_unchanged _ m ⟨h.length⟩ ch hm.1 hm.2
            (by rw [hstep])
        obtain ⟨⟨hext, he⟩, hlog⟩ := ih hm.1 hm.2 log hrun
        refine ⟨⟨[NewSsid contract ⟨q⟩] ++ hext, ?_⟩, hlog⟩
        rw [he, hheap, List.append_assoc]
    | dec contract q =>
      rw [runSnapH] at hrun
      cases hstep : DecrementH (h ++ [NewSsid contract ⟨q⟩]) m ⟨h.length⟩ with
      | none => rw [hstep] at hrun; exact absurd hrun (by simp)
      | some hm =>
        rw [hstep, Option.some_bind] at hrun
        have hheap : hm.1 = h ++ [NewSsid contract ⟨q⟩] :=
          DecrementH_heap_unchanged _ m ⟨h.length⟩ hm.1 hm.2
            (by rw [hstep])
        obtain ⟨⟨hext, he⟩, hlog⟩ := ih hm.1 hm.2 log hrun
        refine ⟨⟨[NewSsid contract ⟨q⟩] ++ hext, ?_⟩, hlog⟩
        rw [he, hheap, List.append_assoc]
    | all =>
      rw [runSnapH] at hrun
      obtain ⟨hheap, ⟨lext, hl⟩⟩ := ih h m (log ++ [AllH m]) hrun
      exact ⟨hheap, ⟨[AllH m] ++ lext, by rw [hl, List.append_assoc]⟩⟩

theorem readSnapshot_extends (h hext : Heap) (snap : List (SsidRef × String))
    (hvalid : ∀ p ∈ snap, p.1.ref < h.length) :
    readSnapshot (h ++ hext) snap = readSnapshot h snap := by
  unfold readSnapshot
  apply List.map_congr_left
  intro p hp
  have hlt := hvalid p hp
  rw [hread, hread, List.getElem?_append_left hlt]

/-- C2: snapshot isolation.  A snapshot handed out by `All` holds slice
headers that alias the registry's own backing arrays; nevertheless, after any
further `Increment`/`Decrement`/`All` calls (each of which could write the
heap through its signature) every backing array present at snapshot time is
untouched — the final heap extends the old one — so dereferencing the
already-returned snapshot yields exactly the values it held when `All`
returned, and the caller's log of earlier snapshots is only appended to. -/
theorem C2_snapshot_isolation (ops : List OpH) (h h' : Heap)
    (m m' : RegistryH) (log log' : List (List (SsidRef × String)))
    (snap : List (SsidRef × String))
    (hrun : runSnapH h m log ops = some (h', m', log'))
    (hvalid : ∀ p ∈ snap, p.1.ref < h.length) :
    h'.take h.length = h ∧
    readSnapshot h' snap = readSnapshot h snap ∧
    log'.take log.length = log := by
  obtain ⟨⟨hext, rfl⟩, ⟨lext, rfl⟩⟩ :=
    runSnapH_extends ops h h' m m' log log' hrun
  exact ⟨by simp, readSnapshot_extends h hext snap hvalid, by simp⟩

theorem C2_snapshot_isolation_witness :
    ([[9], [1, 2], [1, 2]] : Heap).take ([[9], [1, 2]] : Heap).length
      = [[9], [1, 2]] ∧
    readSnapshot [[9], [1, 2], [1, 2]] (AllH [(3, ⟨⟨1⟩, "a", 1⟩)])
      = readSnapshot [[9], [1, 2]] (AllH [(3, ⟨⟨1⟩, "a", 1⟩)]) ∧
    ([] : List (List (SsidRef × String))).take
        ([] : List (List (SsidRef × String))).length
      = [] :=
  C2_snapshot_isolation [OpH.dec 1 [2]]
    [[9], [1, 2]] [[9], [1, 2], [1, 2]] [(3, ⟨⟨1⟩, "a", 1⟩)] [] [] []
    (AllH [(3, ⟨⟨1⟩, "a", 1⟩)]) (by rfl) (by decide)

theorem C10_element0_precondition_witness :
    Ssid.Contract ([] : Ssid) = none ∧
    Ssid.GetHashCode ([] : Ssid) = none ∧
    Increment [] ([] : Ssid) "c" = none ∧
    Decrement [] ([] : Ssid) = none ∧
    (Ssid.Contract [4, 5]).isSome ∧
    (Ssid.GetHashCode [4, 5]).isSome ∧
    (Increment [] [4, 5] "c").isSome ∧
    (Decrement [] [4, 5]).isSome :=
  ⟨(C10_element0_precondition [4, 5] (by decide)).1,
   (C10_element0_precondition [4, 5] (by decide)).2.1,
   (C10_element0_precondition [4, 5] (by decide)).2.2.1 [] "c",
   (C10_element0_precondition [4, 5] (by decide)).2.2.2.1 [],
   (C10_element0_precondition [4, 5] (by decide)).2.2.2.2.1,
   (C10_element0_precondition [4, 5] (by decide)).2.2.2.2.2.1,
   (C10_element0_precondition [4, 5] (by decide)).2.2.2.2.2.2.1 [] "c",
   (C10_element0_precondition [4, 5] (by decide)).2.2.2.2.2.2.2 []⟩

/-! ### The registry invariant (for C5) -/

theorem mapUpdate_keys (key : Nat) (f : subCounter → subCounter)
    (m : SubscriptionCounters) :
    (mapUpdate key f m).map Prod.fst = m.map Prod.fst := by
  induction m with
  | nil => rfl
  | cons p rest ih =>
    by_cases h : p.1 = key <;> simp [mapUpdate, h] at ih ⊢ <;> exact ih

theorem mem_mapUpdate (key : Nat) (f : subCounter → subCounter)
    (m : SubscriptionCounters) (p : Nat × subCounter)
    (hp : p ∈ mapUpdate key f m) :
    ∃ q ∈ m, p = if q.1 = key then (q.1, f q.2) else q := by
  simp only [mapUpdate, List.mem_map] at hp
  obtain ⟨q, hq, he⟩ := hp
  exact ⟨q, hq, he.symm⟩

theorem mapFind_of_mem_nodup (m : SubscriptionCounters) (q : Nat × subCounter)
    (hq : q ∈ m) (hnd : (m.map Prod.fst).Nodup) :
    mapFind q.1 m = some q.2 := by
  induction m with
  | nil => cases hq
  | cons p rest ih =>
    rcases List.mem_cons.1 hq with rfl | hq'
    · simp [mapFind]
    · have hnotin : p.1 ∉ rest.map Prod.fst := (List.nodup_cons.1 hnd).1
      have hne : ¬ p.1 = q.1 := fun he =>
        hnotin (he ▸ List.mem_map.2 ⟨q, hq', rfl⟩)
      rw [mapFind, if_neg hne]
      exact ih hq' (List.nodup_cons.1 hnd).2

theorem Increment_preserves_good (m m' : SubscriptionCounters) (s : Ssid)
    (ch : String) (hg : GoodRegistry m) (h : Increment m s ch = some m') :
    GoodRegistry m' := by
  cases hk : Ssid.GetHashCode s with
  | none => rw [Increment, getOrCreate, hk] at h; exact absurd h (by simp)
  | some key =>
    cases hfind : mapFind key m with
    | none =>
      have h0 := (mapFind_eq_none key m).1 hfind
      rw [Increment_absent m s ch key hk hfind] at h
      injection h with h
      rw [← h]
      constructor
      · simp only [List.map_append, List.map_cons, List.map_nil]
        rw [List.nodup_append]
        exact ⟨hg.1, List.nodup_singleton key,
          by simp only [List.disjoint_singleton]; simpa using fun x hx => h0 (key, x) hx rfl⟩
      · intro p hp
        rcases List.mem_append.1 hp with hp' | hp'
        · exact hg.2 p hp'
        · simp at hp'
          rw [hp']

    | some c =>
      have hstep : Increment m s ch
          = some (mapUpdate key (fun x => { x with Counter := x.Counter + 1 }) m) := by
        simp only [Increment, getOrCreate, hk, hfind, Option.map_some']
      rw [hstep] at h
      injection h with h
      rw [← h]
      constructor
      · rw [mapUpdate_keys]; exact hg.1
      · intro p hp
        obtain ⟨q, hq, he⟩ := mem_mapUpdate key _ m p hp
        by_cases hqk : q.1 = key
        · rw [if_pos hqk] at he
          have := hg.2 q hq
          rw [he]
          simp only []
          omega
        · rw [if_neg hqk] at he
          rw [he]
          exact hg.2 q hq

theorem Decrement_preserves_good (m m' : SubscriptionCounters) (s : Ssid)
    (hg : GoodRegistry m) (h : Decrement m s = some m') :
    GoodRegistry m' := by
  cases hk : Ssid.GetHashCode s with
  | none => rw [Decrement, hk] at h; exact absurd h (by simp)
  | some key =>
    cases hfind : mapFind key m with
    | none =>
      rw [Decrement_absent m s key hk hfind] at h
      injection h with h
      rw [← h]
      exact hg
    | some c =>
      by_cases hn : c.Counter - 1 ≤ 0
      · have hstep : Decrement m s = some (mapDelete key m) := by
          simp only [Decrement, hk, hfind, Option.map_some']
          rw [if_pos hn]
        rw [hstep] at h
        injection h with h
        rw [← h]
        have hsub : List.Sublist (mapDelete key m) m := List.filter_sublist m
        constructor
        · exact hg.1.sublist (hsub.map Prod.fst)
        · intro p hp
          exact hg.2 p (hsub.mem hp)
      · have hstep : Decrement m s
            = some (mapUpdate key (fun x => { x with Counter := x.Counter - 1 }) m) := by
          simp only [Decrement, hk, hfind, Option.map_some']
          rw [if_neg hn]
        rw [hstep] at h
        injection h with h
        rw [← h]
        constructor
        · rw [mapUpdate_keys]; exact hg.1
        · intro p hp
          obtain ⟨q, hq, he⟩ := mem_mapUpdate key _ m p hp
          by_cases hqk : q.1 = key
          · have hfq : mapFind q.1 m = some q.2 := mapFind_of_mem_nodup m q hq hg.1
            rw [hqk, hfind] at hfq
            have hqc : q.2 = c := by injection hfq with hfq; exact hfq.symm
            rw [if_pos hqk] at he
            rw [he]
            simp only []
            rw [hqc]
            omega
          · rw [if_neg hqk] at he
            rw [he]
            exact hg.2 q hq

theorem runOps_preserves_good (ops : List Op) (m m' : SubscriptionCounters)
    (hg : GoodRegistry m) (h : runOps m ops = some m') :
    GoodRegistry m' := by
  induction ops generalizing m with
  | nil =>
    rw [runOps] at h
    injection h with h
    rw [← h]
    exact hg
  | cons op rest ih =>
    cases op with
    | inc ssid ch =>
      rw [runOps] at h
      cases hstep : Increment m ssid ch with
      | none => rw [hstep] at h; exact absurd h (by simp)
      | some m1 =>
        rw [hstep, Option.some_bind] at h
        exact ih m1 (Increment_preserves_good m m1 ssid ch hg hstep) h
    | dec ssid =>
      rw [runOps] at h
      cases hstep : Decrement m ssid with
      | none => rw [hstep] at h; exact absurd h (by simp)
      | some m1 =>
        rw [hstep, Option.some_bind] at h
        exact ih m1 (Decrement_preserves_good m m1 ssid hg hstep) h
    | all =>
      rw [runOps] at h
      exact ih m hg h

/-- C5: starting from `NewSubscriptionCounters()`, after any finite sequence
of `Increment`, `Decrement` and `All` calls that completes normally, every
entry retained in the registry has a counter at least 1 (an entry is created
only by an increment that raises its count to 1, and is deleted as soon as a
decrement brings its count to 0 or below). -/
theorem C5_registry_invariant (ops : List Op) (m : SubscriptionCounters)
    (h : runOps NewSubscriptionCounters ops = some m) :
    ∀ p ∈ m, 1 ≤ p.2.Counter :=
  (runOps_preserves_good ops NewSubscriptionCounters m
    ⟨List.nodup_nil, fun p hp => absurd hp (List.not_mem_nil p)⟩ h).2

theorem C5_registry_invariant_witness :
    1 ≤ (⟨[1, 2], "a", 1⟩ : subCounter).Counter :=
  C5_registry_invariant
    [Op.inc [1, 2] "a", Op.inc [1, 2] "a", Op.dec [1, 2]]
    [(3, ⟨[1, 2], "a", 1⟩)] (by decide)
    (3, ⟨[1, 2], "a", 1⟩) (by simp)

/-! ### The subscriber set (for C6) -/

theorem Contains_iff_mem {α : Type} [DecidableEq α] (s : Subscribers α) (x : α) :
    Subscribers.Contains s x = true ↔ x ∈ s := by
  induction s with
  | nil => simp [Subscribers.Contains]
  | cons v rest ih =>
    by_cases h : v = x
    · simp [Subscribers.Contains, h]
    · rw [Subscribers.Contains, if_neg h, ih, List.mem_cons]
      constructor
      · exact Or.inr
      · rintro (rfl | hy)
        · exact absurd rfl h
        · exact hy

theorem AddUnique_mem_iff {α : Type} [DecidableEq α] (s : Subscribers α) (x y : α) :
    y ∈ Subscribers.AddUnique s x ↔ y ∈ s ∨ y = x := by
  unfold Subscribers.AddUnique
  by_cases h : Subscribers.Contains s x = false
  · rw [if_pos h]; simp
  · rw [if_neg h]
    have hx : x ∈ s := (Contains_iff_mem s x).1 (by
      revert h; cases Subscribers.Contains s x <;> simp)
    constructor
    · exact Or.inl
    · rintro (hy | rfl)
      · exact hy
      · exact hx

theorem AddUnique_nodup {α : Type} [DecidableEq α] (s : Subscribers α) (x : α)
    (h : s.Nodup) : (Subscribers.AddUnique s x).Nodup := by
  unfold Subscribers.AddUnique
  by_cases hc : Subscribers.Contains s x = false
  · rw [if_pos hc]
    have hx : x ∉ s := fun hm => by
      rw [(Contains_iff_mem s x).2 hm] at hc
      exact Bool.noConfusion hc
    rw [List.nodup_append]
    exact ⟨h, List.nodup_singleton x,
      by simp only [List.disjoint_singleton]; exact hx⟩
  · rw [if_neg hc]; exact h

theorem foldl_AddUnique_nodup {α : Type} [DecidableEq α] (ops : List α)
    (s : Subscribers α) (h : s.Nodup) :
    (ops.foldl Subscribers.AddUnique s).Nodup := by
  induction ops generalizing s with
  | nil => exact h
  | cons a rest ih => exact ih _ (AddUnique_nodup s a h)

theorem foldl_AddUnique_mem {α : Type} [DecidableEq α] (ops : List α)
    (s : Subscribers α) (y : α) :
    y ∈ ops.foldl Subscribers.AddUnique s ↔ y ∈ s ∨ y ∈ ops := by
  induction ops generalizing s with
  | nil => simp
  | cons a rest ih =>
    rw [List.foldl_cons, ih, AddUnique_mem_iff, List.mem_cons]
    tauto

/-- C6: folding any finite sequence of `AddUnique` calls over the empty
subscriber set yields a set with no duplicate handles whose size is the
number of distinct handles added, and `Contains x` holds afterwards exactly
when `x` was one of the handles added. -/
theorem C6_subscribers_unique {α : Type} [DecidableEq α] (ops : List α) (x : α) :
    (ops.foldl Subscribers.AddUnique ([] : Subscribers α)).Nodup ∧
    (ops.foldl Subscribers.AddUnique ([] : Subscribers α)).length = ops.toFinset.card ∧
    (Subscribers.Contains (ops.foldl Subscribers.AddUnique ([] : Subscribers α)) x = true
      ↔ x ∈ ops) := by
  have hnd := foldl_AddUnique_nodup ops ([] : Subscribers α) List.nodup_nil
  have hmem : ∀ y, y ∈ ops.foldl Subscribers.AddUnique ([] : Subscribers α) ↔ y ∈ ops := by
    intro y
    rw [foldl_AddUnique_mem]
    simp
  refine ⟨hnd, ?_, ?_⟩
  · have hfin : (ops.foldl Subscribers.AddUnique ([] : Subscribers α)).toFinset
        = ops.toFinset := by
      ext y
      simp only [List.mem_toFinset]
      exact hmem y
    rw [← hfin, List.toFinset_card_of_nodup hnd]
  · rw [Contains_iff_mem]
    exact hmem x

/-! ### First increment wins the bucket metadata (for C9) -/

theorem mapFind_some_mem (key : Nat) (m : SubscriptionCounters) (c : subCounter)
    (h : mapFind key m = some c) : (key, c) ∈ m := by
  induction m with
  | nil => exact absurd h (by simp [mapFind])
  | cons p rest ih =>
    rw [mapFind] at h
    by_cases hp : p.1 = key
    · rw [if_pos hp] at h
      injection h with h
      have hpc : p = (key, c) := by
        cases p
        simp_all
      rw [← hpc]
      exact List.mem_cons_self p rest
    · rw [if_neg hp] at h
      exact List.mem_cons_of_mem p (ih h)

theorem mapFind_mapUpdate_self (key : Nat) (f : subCounter → subCounter)
    (m : SubscriptionCounters) :
    mapFind key (mapUpdate key f m) = (mapFind key m).map f := by
  induction m with
  | nil => rfl
  | cons p rest ih =>
    by_cases hp : p.1 = key
    · simp [mapUpdate, mapFind, hp]
    · simp [mapUpdate, mapFind, hp] at ih ⊢
      exact ih

/-- C9: when a bucket for a hash already exists, a later `Increment` whose
SSID collides with it (same hash, possibly different SSID or channel) only
bumps the stored count: the bucket keeps the SSID and channel recorded by the
`Increment` that created it, and that pair is what `All` reports for it. -/
theorem C9_first_increment_wins (m : SubscriptionCounters) (s2 : Ssid) (ch2 : String)
    (key : Nat) (c : subCounter)
    (hk : Ssid.GetHashCode s2 = some key) (hfind : mapFind key m = some c) :
    Increment m s2 ch2
      = some (mapUpdate key (fun x => { x with Counter := x.Counter + 1 }) m) ∧
    mapFind key (mapUpdate key (fun x => { x with Counter := x.Counter + 1 }) m)
      = some ⟨c.Ssid, c.Channel, c.Counter + 1⟩ ∧
    (c.Ssid, c.Channel)
      ∈ All (mapUpdate key (fun x => { x with Counter := x.Counter + 1 }) m) := by
  refine ⟨?_, ?_, ?_⟩
  · simp only [Increment, getOrCreate, hk, hfind, Option.map_some']
  · rw [mapFind_mapUpdate_self, hfind]
    rfl
  · have hmem : (key, c) ∈ m := mapFind_some_mem key m c hfind
    have hmem2 : ((key, ⟨c.Ssid, c.Channel, c.Counter + 1⟩) : Nat × subCounter)
        ∈ mapUpdate key (fun x => { x with Counter := x.Counter + 1 }) m := by
      simp only [mapUpdate, List.mem_map]
      exact ⟨(key, c), hmem, by simp⟩
    exact List.mem_map.2 ⟨_, hmem2, rfl⟩

theorem C9_first_increment_wins_witness :
    Increment [(0, ⟨[1, 2, 3], "ch1", 1⟩)] [1, 3, 2] "ch2"
      = some (mapUpdate 0 (fun x => { x with Counter := x.Counter + 1 })
          [(0, ⟨[1, 2, 3], "ch1", 1⟩)]) ∧
    mapFind 0 (mapUpdate 0 (fun x => { x with Counter := x.Counter + 1 })
        [(0, ⟨[1, 2, 3], "ch1", 1⟩)])
      = some ⟨[1, 2, 3], "ch1", 1 + 1⟩ ∧
    (([1, 2, 3] : Ssid), "ch1")
      ∈ All (mapUpdate 0 (fun x => { x with Counter := x.Counter + 1 })
          [(0, ⟨[1, 2, 3], "ch1", 1⟩)]) :=
  C9_first_increment_wins [(0, ⟨[1, 2, 3], "ch1", 1⟩)] [1, 3, 2] "ch2" 0
    ⟨[1, 2, 3], "ch1", 1⟩ (by decide) (by decide)

end Emitter
